import Mathlib

/-!
Verification of the CVs document-processing repository.

Shallow embedding of the Python sources:
* `Process_files.py` — `extract_file_id`, `process_single_file`,
  `update_excel_with_json_data` (the tabular upsert engine);
* `Claude_as_OCR.py` — `combine_ocr_results`,
  `process_file_with_combined_ocr` (the OCR reconciler);
* `debug_OCR_THROW_PNG.py` — `convert_pdf_to_png`,
  `convert_pdf_to_png_with_pymupdf`, `convert_docx_to_png`,
  `create_pdf_from_text` (the conversion strategy cascade);
* `excel_to_concepts.py` — `excel_to_concept_mapping`.

External effects (pandas cells, LLM calls, renderers, subprocesses,
temporary-file names) are modelled by explicit values and oracle
functions supplied through environment records; every Python
`try/except` around such an effect becomes a `match` on an
`Except String _` outcome.
-/

/-- A pandas cell value: an integer, a string, or `NaN` (missing).
`astype(str)` renders `NaN` as the string `"nan"`. -/
inductive Val where
  | int (n : Int)
  | str (s : String)
  | nan
deriving DecidableEq

/-- Python `str()` / pandas `astype(str)` on a cell. -/
def valToStr : Val → String
  | .int n => toString n
  | .str s => s
  | .nan => "nan"

/-- Whether a cell is missing (`NaN`): pandas `isna`. -/
def Val.isNan : Val → Bool
  | .nan => true
  | _ => false

/-- A DataFrame row, as the association list of its non-`NaN` cells.
A column absent from the list reads as `NaN`. -/
abbrev DfRow : Type := List (String × Val)

/-- Whether a row carries a (non-`NaN`) cell for column `k`. -/
def hasKey (r : DfRow) (k : String) : Bool :=
  r.any (fun kv => kv.1 == k)

/-- Read one cell of a row (`df.at[idx, k]`); absent means `NaN`. -/
def rowGet (r : DfRow) (k : String) : Val :=
  match r.find? (fun kv => kv.1 == k) with
  | some kv => kv.2
  | none => .nan

/-- Write one cell of a row (`df.at[idx, k] = v`, or a Python dict
update `row[k] = v`): replace the binding if the key is present,
otherwise append it. -/
def rowSet (r : DfRow) (k : String) (v : Val) : DfRow :=
  if hasKey r k then
    r.map (fun kv => if kv.1 == k then (k, v) else kv)
  else
    r ++ [(k, v)]

/-- A pandas DataFrame: its column list and its rows. -/
structure Frame where
  cols : List String
  rows : List DfRow
deriving DecidableEq

/-- The `ID` cell of a row rendered with `astype(str)` — the
string-normalized key used by `update_excel_with_json_data`. -/
def idOf (r : DfRow) : String := valToStr (rowGet r "ID")

/-- The row dict built by `update_excel_with_json_data` (lines 144–153):
`row = {"ID": file_id, "File Type": file_type}` followed by
`row[concept_value] = extracted_data[concept_value]` when present and
`"Not found"` otherwise, for each concept of the sheet. -/
def buildRow (fid ftype : String) (concepts : List String)
    (extracted : List (String × Val)) : DfRow :=
  concepts.foldl
    (fun r c =>
      rowSet r c
        (match extracted.find? (fun kv => kv.1 == c) with
         | some kv => kv.2
         | none => .str "Not found"))
    [("ID", .str fid), ("File Type", .str ftype)]

/-- Index of the first row satisfying `p`
(`df.index[mask].tolist()[0]`). -/
def firstIdx (p : α → Bool) : List α → Nat
  | [] => 0
  | a :: as => if p a then 0 else firstIdx p as + 1

/-- Replace the element at one index, as positional assignment does. -/
def modifyIdx : List α → Nat → (α → α) → List α
  | [], _, _ => []
  | a :: as, 0, f => f a :: as
  | a :: as, n + 1, f => a :: modifyIdx as n f

/-- The in-place update of an existing row (lines 163–165): for each
`(key, value)` of the incoming row dict, in insertion order, write the
cell only when `key` is already one of the sheet's columns. -/
def updRow (cols : List String) (row : DfRow) (old : DfRow) : DfRow :=
  row.foldl
    (fun acc kv => if cols.contains kv.1 then rowSet acc kv.1 kv.2 else acc)
    old

/-- Model of `pd.concat([df, pd.DataFrame([row])], ignore_index=True)`: the
column set becomes the sheet's columns followed by the incoming row's
new keys; the row is appended. -/
def appendRow (f : Frame) (row : DfRow) : Frame :=
  { cols := f.cols ++ (row.map Prod.fst).filter (fun k => !f.cols.contains k),
    rows := f.rows ++ [row] }

/-- One sheet-level upsert of `update_excel_with_json_data`
(lines 155–173): if the sheet has an `ID` column and the incoming id
occurs among `df['ID'].astype(str)`, update the first matching row in
place (existing columns only); otherwise append the row. -/
def upsertSheet (f : Frame) (row : DfRow) (fid : String) : Frame :=
  if f.cols.contains "ID" then
    if (f.rows.map idOf).contains fid then
      { f with
        rows := modifyIdx f.rows (firstIdx (fun r => idOf r == fid) f.rows)
                  (updRow f.cols row) }
    else appendRow f row
  else appendRow f row

/-- One `update_excel_with_json_data` call for one sheet, as seen from
its `json_data` argument. -/
structure UpOp where
  fid : String
  ftype : String
  extracted : List (String × Val)
deriving DecidableEq

/-- A sequence of upserts against one sheet whose concept list is
`concepts`, starting from the frame `f`. -/
def runUpserts (concepts : List String) (f : Frame) (ops : List UpOp) : Frame :=
  ops.foldl
    (fun f op => upsertSheet f (buildRow op.fid op.ftype concepts op.extracted) op.fid)
    f

/-- The empty sheet created on first reference (line 142):
`pd.DataFrame(columns=["ID", "File Type"])`. -/
def bootFrame : Frame := { cols := ["ID", "File Type"], rows := [] }

/-- Every key appearing in a row of the frame is one of its columns —
true of every DataFrame. -/
def FrameWF (f : Frame) : Prop :=
  ∀ r ∈ f.rows, ∀ kv ∈ r, f.cols.contains kv.1 = true

instance (f : Frame) : Decidable (FrameWF f) := by
  unfold FrameWF; infer_instance

/-- The sheet state used to refute the column-growth part of C2: one row
with ID `"1"`, columns `ID` and `File Type` only. -/
def c2Frame : Frame :=
  { cols := ["ID", "File Type"],
    rows := [[("ID", Val.str "1"), ("File Type", Val.str "pdf")]] }

/-- An incoming row for ID `"1"` carrying a concept column `Skill` that the
sheet does not yet have. -/
def c2Row : DfRow :=
  [("ID", Val.str "1"), ("File Type", Val.str "pdf"), ("Skill", Val.str "Lean")]

/-- Index of the last occurrence of `c` (Python `str.rfind`). -/
def lastIdxOf (c : Char) (l : List Char) : Option Nat :=
  match (l.reverse.findIdx? (fun x => x == c)) with
  | some k => some (l.length - 1 - k)
  | none => none

/-- Model of `os.path.splitext` on a bare filename (no directory separators): split
at the last dot, unless every character up to that dot is itself a dot. -/
def splitExt (s : String) : String × String :=
  match lastIdxOf '.' s.data with
  | none => (s, "")
  | some i =>
    if (s.data.take i).any (fun ch => ch != '.') then
      (String.mk (s.data.take i), String.mk (s.data.drop i))
    else (s, "")

/-- Embedding of `extract_file_id` (`Process_files.py` lines 25–38):
`re.search(r'(\d+)', filename)` yields the leftmost maximal digit run of
the filename, or `None` when the filename holds no digit. -/
def extract_file_id (filename : String) : Option String :=
  let rest := filename.data.dropWhile (fun c => !c.isDigit)
  if rest.isEmpty then none
  else some (String.mk (rest.takeWhile Char.isDigit))

/-- Python `str.startswith`, over the character list. -/
def strStartsWith (s pre : String) : Bool :=
  pre.data.isPrefixOf s.data

/-- Python `str.lower` (ASCII range, the only one exercised here). -/
def asciiLower (s : String) : String :=
  String.mk (s.data.map Char.toLower)

/-- Python `str.upper` (ASCII range, the only one exercised here). -/
def asciiUpper (s : String) : String :=
  String.mk (s.data.map Char.toUpper)

/-- Python `str.strip`: drop leading and trailing whitespace. -/
def pyStrip (s : String) : String :=
  String.mk (((s.data.dropWhile Char.isWhitespace).reverse.dropWhile
    Char.isWhitespace).reverse)

/-- Python `sub in s`: substring containment, over character lists. -/
def strContainsSub (s sub : String) : Bool :=
  go s.data
where
  go : List Char → Bool
    | [] => sub.data.isPrefixOf []
    | c :: rest => sub.data.isPrefixOf (c :: rest) || go rest

/-- A value of the `ocr_results` dict handed to the reconciler: a string,
or something that fails `isinstance(text, str)`. -/
inductive OcrVal where
  | str (s : String)
  | nonStr
deriving DecidableEq

/-- The filtering pass of `combine_ocr_results` (`Claude_as_OCR.py`
lines 149–151): keep `(method, text)` exactly when `text` is a string that
starts with neither `"Failed"` nor `"Error"`. -/
def fusionInput (results : List (String × OcrVal)) : List (String × String) :=
  results.filterMap (fun mt =>
    match mt.2 with
    | .str t =>
      if !(strStartsWith t "Failed") && !(strStartsWith t "Error") then some (mt.1, t)
      else none
    | .nonStr => none)

/-- The fixed instruction header of the fusion prompt
(`Claude_as_OCR.py` lines 120–136). -/
def basePrompt : String :=
  "You are an expert OCR text optimizer. You\x27ve been given multiple text extractions from the same document, \neach produced by a different OCR method. Your task is to create a single, optimized version that combines the best elements \nfrom each extraction.\n\nFollow these guidelines:\n1. Prioritize completeness - include all meaningful content from all versions\n2. Fix obvious OCR errors (e.g., misrecognized characters, broken words)\n3. Maintain the original document structure (paragraphs, lists, tables)\n4. Preserve proper names, numbers, and technical terms accurately\n5. If versions conflict, prefer the version that appears most grammatically and contextually correct\n6. Remove any extraction artifacts or error messages that aren\x27t part of the original document\n7. For Hebrew text, ensure proper right-to-left formatting and character recognition\n8. Pay special attention to numbers, dates, and other critical information\n9. Maintain the original formatting as much as possible (bullet points, numbering, etc.)\n10. If a section appears in one version but not others, include it if it seems legitimate\n\n"

/-- The prompt prefix: header plus the optional file-type and language
sentences (lines 138–146); `if file_type:` / `if language:` are Python
truthiness, so `None` and the empty string both skip the sentence. -/
def headerPrompt (fileType language : Option String) : String :=
  let p := basePrompt
  let p := match fileType with
    | some ft => if ft = "" then p
        else p ++ "\nThis text was extracted from a " ++ asciiUpper ft ++ " file. "
    | none => p
  let p := match language with
    | some lang =>
      if lang = "" then p
      else
        let p := p ++ "\nThe primary language of the document is " ++ asciiUpper lang ++ ". "
        if asciiLower lang = "hebrew" then
          p ++ "Pay special attention to right-to-left text direction and Hebrew characters. "
        else p
    | none => p
  p ++ "\n\nHere are the different OCR extractions:\n\n"

/-- One `--- method ---` section per retained extraction (lines 149–151). -/
def extractionBlocks (results : List (String × OcrVal)) : String :=
  (fusionInput results).foldl
    (fun acc mt => acc ++ "--- " ++ mt.1 ++ " ---\n" ++ mt.2 ++ "\n\n") ""

/-- The closing instruction of the fusion prompt (line 153). -/
def closingPrompt : String :=
  "\nPlease provide a single, optimized version of the text that combines the best elements from all extractions. Return ONLY the optimized text without any explanations or notes:"

/-- The full fusion prompt sent to the model. -/
def buildPrompt (results : List (String × OcrVal)) (fileType language : Option String) : String :=
  headerPrompt fileType language ++ extractionBlocks results ++ closingPrompt

/-- The external fusion model: a prompt either yields a response text or
raises (client construction and `messages.create` both live inside the
`try`). -/
structure ReconEnv where
  model : String → Except String String

/-- Embedding of `combine_ocr_results` (`Claude_as_OCR.py` lines 103–171): build the
prompt over the retained extractions, call the model, and turn any raised
exception into the string `"Error combining OCR results with Claude: …"`. -/
def combine_ocr_results (env : ReconEnv) (results : List (String × OcrVal))
    (fileType language : Option String) : String :=
  match env.model (buildPrompt results fileType language) with
  | .ok t => t
  | .error e => "Error combining OCR results with Claude: " ++ e

/-- Provider results in which no entry survives the sentinel filter. -/
def c4Results : List (String × OcrVal) :=
  [("tesseract", OcrVal.str "Failed to extract text"),
   ("documentai", OcrVal.str "Error processing file with Claude: timeout"),
   ("note", OcrVal.nonStr)]

/-- A fusion model that answers every prompt with a fixed transcription. -/
def c4Env : ReconEnv := ⟨fun _ => .ok "Fabricated transcription"⟩

/-- Outcomes of the external calls made by `convert_pdf_to_png`
(`debug_OCR_THROW_PNG.py` lines 110–210); an `Except` error models a
raised exception, and `tempPng n` names the fresh temporary PNG created
by strategy `n` (0 = pdf2image, 1 = PyMuPDF, 2 = ImageMagick). -/
structure PdfEnv where
  popplerPath : Option String
  convertFromPath : Option String → Nat → Nat → Except String (List Nat)
  openPdf : Except String Unit
  pageCount : Nat
  renderPage : Nat → Except String Nat
  magickRun : Nat → Except String Unit
  tempPng : Nat → String

/-- Embedding of `convert_pdf_to_png_with_pymupdf` (lines 110–140): open the PDF, bail
out when it has no pages, render page 0 and save it to a fresh temporary
PNG; every raised exception is caught and yields `None`. The second
component lists the temporary files the call created. -/
def convert_pdf_to_png_with_pymupdf (env : PdfEnv) : Option String × List String :=
  match env.openPdf with
  | .error _ => (none, [])
  | .ok _ =>
    if env.pageCount = 0 then (none, [])
    else
      match env.renderPage 0 with
      | .error _ => (none, [])
      | .ok _ => (some (env.tempPng 1), [env.tempPng 1])

/-- The PyMuPDF-then-ImageMagick tail of `convert_pdf_to_png`
(lines 187–210); the ImageMagick temporary PNG is created before the
subprocess runs, so it exists even when the subprocess fails. -/
def convertPdfFallback (env : PdfEnv) : Option String × List String :=
  match convert_pdf_to_png_with_pymupdf env with
  | (some p, c) => (some p, c)
  | (none, c) =>
    match env.magickRun 0 with
    | .ok _ => (some (env.tempPng 2), c ++ [env.tempPng 2])
    | .error _ => (none, c ++ [env.tempPng 2])

/-- Embedding of `convert_pdf_to_png` (lines 143–210): try `pdf2image` with
`first_page=1, last_page=1` (using the detected poppler path), then
PyMuPDF on page 0, then ImageMagick on page `[0]`, short-circuiting at
the first strategy that yields an image, and returning `none` when all
three fail. The second component lists the temporary files created; the
function deletes none of them. -/
def convert_pdf_to_png (env : PdfEnv) : Option String × List String :=
  match env.convertFromPath env.popplerPath 1 1 with
  | .ok images =>
    if images.isEmpty then convertPdfFallback env
    else (some (env.tempPng 0), [env.tempPng 0])
  | .error _ => convertPdfFallback env

/-- Outcomes of the external calls made by `convert_docx_to_png`
(`debug_OCR_THROW_PNG.py` lines 297–367) and its helpers
`create_pdf_from_text` (268–294) and `create_text_image` (213–243).
`tempPdfA` is the temporary PDF of the Word-COM method, `tempPdfB` the
temporary PDF of `create_pdf_from_text`, `tempPngC` the PNG of
`create_text_image`. -/
structure DocxEnv where
  win32Import : Except String Unit
  tempPdfA : String
  wordSaveAsPdf : Except String Unit
  pdfEnvA : PdfEnv
  docxText : String
  reportlabImport : Except String Unit
  tempPdfB : String
  buildPdf : Except String Unit
  pdfEnvB : PdfEnv
  textImage : Except String Unit
  tempPngC : String

/-- Embedding of `create_pdf_from_text` (lines 268–294): import reportlab, create a
temporary PDF file, then build the document into it; a build failure is
caught, returns `None`, and leaves the already-created temporary behind. -/
def create_pdf_from_text (env : DocxEnv) : Option String × List String :=
  match env.reportlabImport with
  | .error _ => (none, [])
  | .ok _ =>
    match env.buildPdf with
    | .ok _ => (some env.tempPdfB, [env.tempPdfB])
    | .error _ => (none, [env.tempPdfB])

/-- Embedding of `create_text_image` (lines 213–243): draw the text into a fresh PNG;
exceptions are caught and yield `None`. -/
def create_text_image (env : DocxEnv) : Option String × List String :=
  match env.textImage with
  | .ok _ => (some env.tempPngC, [env.tempPngC])
  | .error _ => (none, [])

/-- Method 2 of `convert_docx_to_png` (lines 339–364): extract the text,
synthesize a PDF from it, convert that PDF to PNG and delete the
synthetic PDF, falling back to a direct text image. `created`/`deleted`
accumulate the temporary-file events of the enclosing call. -/
def convertDocxMethod2 (env : DocxEnv) (created deleted : List String) :
    Option String × List String × List String :=
  if env.docxText = "" then (none, created, deleted)
  else
    match create_pdf_from_text env with
    | (some pdfPath, c1) =>
      match convert_pdf_to_png env.pdfEnvB with
      | (png, c2) =>
        match png with
        | some p => (some p, created ++ c1 ++ c2, deleted ++ [pdfPath])
        | none =>
          match create_text_image env with
          | (img, c3) => (img, created ++ c1 ++ c2 ++ c3, deleted ++ [pdfPath])
    | (none, c1) =>
      match create_text_image env with
      | (img, c3) => (img, created ++ c1 ++ c3, deleted)

/-- Embedding of `convert_docx_to_png` (lines 297–367): Method 1 creates a temporary
PDF, drives Word COM automation into it, recurses into the PDF chain and
then removes that PDF — but when the automation raises after the
temporary was created, control falls to Method 2 with no removal.
Returns (result, temporaries created, temporaries deleted). -/
def convert_docx_to_png (env : DocxEnv) : Option String × List String × List String :=
  match env.win32Import with
  | .error _ => convertDocxMethod2 env [] []
  | .ok _ =>
    match env.wordSaveAsPdf with
    | .error _ => convertDocxMethod2 env [env.tempPdfA] []
    | .ok _ =>
      match convert_pdf_to_png env.pdfEnvA with
      | (png, c) =>
        match png with
        | some p => (some p, env.tempPdfA :: c, [env.tempPdfA])
        | none => convertDocxMethod2 env (env.tempPdfA :: c) [env.tempPdfA]

/-- A PDF environment in which all three strategies fail: pdf2image and
PyMuPDF raise, and the ImageMagick subprocess fails after its temporary
PNG was created. -/
def c6PdfEnv : PdfEnv :=
  { popplerPath := none,
    convertFromPath := fun _ _ _ => .error "pdf2image is not installed",
    openPdf := .error "fitz is not installed",
    pageCount := 0,
    renderPage := fun _ => .error "unreachable",
    magickRun := fun _ => .error "magick: command not found",
    tempPng := fun n => if n = 2 then "magick.png" else "other.png" }

/-- A DOCX environment in which Word COM automation raises after its
temporary PDF `wordA.pdf` was created, and text extraction yields the
empty string. -/
def c6Env : DocxEnv :=
  { win32Import := .ok (),
    tempPdfA := "wordA.pdf",
    wordSaveAsPdf := .error "Word.Application is not available",
    pdfEnvA := c6PdfEnv,
    docxText := "",
    reportlabImport := .ok (),
    tempPdfB := "textB.pdf",
    buildPdf := .ok (),
    pdfEnvB := c6PdfEnv,
    textImage := .ok (),
    tempPngC := "textC.png" }

/-- A PDF environment in which pdf2image raises but PyMuPDF works. -/
def c5Env : PdfEnv :=
  { popplerPath := none,
    convertFromPath := fun _ _ _ => .error "poppler is not installed",
    openPdf := .ok (),
    pageCount := 3,
    renderPage := fun _ => .ok 7,
    magickRun := fun _ => .error "magick: command not found",
    tempPng := fun n => "strategy" ++ toString n ++ ".png" }

/-- A DOCX environment in which Word COM automation succeeds. -/
def c6EnvOk : DocxEnv :=
  { win32Import := .ok (),
    tempPdfA := "wordA.pdf",
    wordSaveAsPdf := .ok (),
    pdfEnvA := c6PdfEnv,
    docxText := "some text",
    reportlabImport := .ok (),
    tempPdfB := "textB.pdf",
    buildPdf := .ok (),
    pdfEnvB := c6PdfEnv,
    textImage := .ok (),
    tempPngC := "textC.png" }

/-- Lines 76–80 of `Process_files.py`: the deduplicated, order-preserving
list of every concept's `"value"` across all sheets (entries lacking a
`"value"` key are skipped). -/
def allConceptValues (mapping : List (String × List (Option String))) : List String :=
  mapping.foldl
    (fun acc sheet =>
      sheet.2.foldl
        (fun acc c =>
          match c with
          | some v => if acc.contains v then acc else acc ++ [v]
          | none => acc)
        acc)
    []

/-- Outcomes of the external calls of `process_single_file`: the OCR text
returned by `process_file_with_combined_ocr` (always a string), the
Claude aspect extraction (may raise), and the mkdir/JSON dump. -/
structure ProcEnv where
  ocrText : String
  extractAspects : String → List String → String → Except String (List (String × Val))
  saveJson : Except String Unit

/-- Embedding of `process_single_file` (`Process_files.py` lines 41–108): skip
extensions outside `['.png', '.pdf', '.docx']`, skip filenames with no
recoverable ID, otherwise OCR, extract aspects and save; any exception is
caught and yields `None`. Returns `{"id", "data", "file_type"}` on
success. -/
def process_single_file (env : ProcEnv) (filename : String)
    (mapping : List (String × List (Option String))) :
    Option (String × List (String × Val) × String) :=
  let ext := asciiLower (splitExt filename).2
  if !([".png", ".pdf", ".docx"].contains ext) then none
  else
    match extract_file_id filename with
    | none => none
    | some fid =>
      match env.extractAspects env.ocrText (allConceptValues mapping)
          (String.mk (ext.data.drop 1)) with
      | .error _ => none
      | .ok data =>
        match env.saveJson with
        | .error _ => none
        | .ok _ => some (fid, data, String.mk (ext.data.drop 1))

/-- Outcomes of the external calls of `process_file_with_combined_ocr`:
the three provider pools of the missing `OCR_Combined` module (each may
raise), and the exception text raised when `ocr_results["Note"]` is not a
string. -/
structure FileEnv where
  poolPng : Except String (List (String × OcrVal))
  poolPdf : Except String (List (String × OcrVal))
  poolDocx : Except String (List (String × OcrVal))
  noteErr : String

/-- The heuristic language sniff (`Claude_as_OCR.py` lines 211–220): the
first string value containing `"hebrew"` (case-folded) marks the document
Hebrew, else English. -/
def detectLanguage (results : List (String × OcrVal)) : String :=
  match results.find? (fun kv =>
    match kv.2 with
    | .str v => strContainsSub (asciiLower v) "hebrew"
    | .nonStr => false) with
  | some _ => "hebrew"
  | none => "english"

/-- The DOCX `Note` check (lines 202–206): a string `Note` containing
`"hebrew"` marks Hebrew, a missing `Note` or one without it English, and
a non-string `Note` raises (`.lower()` on a non-string). -/
def docxNoteLanguage (env : FileEnv) (results : List (String × OcrVal)) :
    Except String String :=
  match results.find? (fun kv => kv.1 == "Note") with
  | some kv =>
    match kv.2 with
    | .str v =>
      .ok (if strContainsSub (asciiLower v) "hebrew" then "hebrew" else "english")
    | .nonStr => .error env.noteErr
  | none => .ok "english"

/-- The fetch path of `process_file_with_combined_ocr` (lines 192–208):
dispatch on the extension to one provider pool, detect the language, and
reconcile; a raised exception becomes the
`"Error processing file with combined OCR: …"` string, and an unknown
extension returns the (non-`Error`-prefixed) unsupported-type string. -/
def processFetch (fenv : FileEnv) (renv : ReconEnv) (ext ftype : String) : String :=
  if ext = ".png" then
    match fenv.poolPng with
    | .error e => "Error processing file with combined OCR: " ++ e
    | .ok results =>
      combine_ocr_results renv results (some ftype) (some (detectLanguage results))
  else if ext = ".pdf" then
    match fenv.poolPdf with
    | .error e => "Error processing file with combined OCR: " ++ e
    | .ok results =>
      combine_ocr_results renv results (some ftype) (some (detectLanguage results))
  else if ext = ".docx" then
    match fenv.poolDocx with
    | .error e => "Error processing file with combined OCR: " ++ e
    | .ok results =>
      match docxNoteLanguage fenv results with
      | .error e => "Error processing file with combined OCR: " ++ e
      | .ok lang => combine_ocr_results renv results (some ftype) (some lang)
  else "Unsupported file type: " ++ ext

/-- Embedding of `process_file_with_combined_ocr` (lines 174–228): compute the file
type from the extension, fetch provider results when none were supplied
(`if not ocr_results:` — `None` and the empty dict both refetch), then
reconcile; every exception is caught and returned as an `"Error…"`
string. -/
def process_file_with_combined_ocr (fenv : FileEnv) (renv : ReconEnv)
    (filename : String) (given : Option (List (String × OcrVal))) : String :=
  let ext := asciiLower (splitExt filename).2
  let ftype := String.mk (ext.data.filter (fun c => c != '.'))
  match given with
  | none => processFetch fenv renv ext ftype
  | some results =>
    if results.isEmpty then processFetch fenv renv ext ftype
    else combine_ocr_results renv results (some ftype) (some (detectLanguage results))

/-- An aspect-extraction environment whose calls all succeed. -/
def c7Env : ProcEnv :=
  { ocrText := "document text",
    extractAspects := fun _ _ _ => .ok [],
    saveJson := .ok () }

/-- A provider environment whose PDF pool raises. -/
def c10Env : FileEnv :=
  { poolPng := .ok [],
    poolPdf := .error "DocumentAI quota exceeded",
    poolDocx := .ok [],
    noteErr := "AttributeError: lower" }

/-- One sheet of the concept-vocabulary workbook, as parsed with
`header=None`: its column count and its cell rows. -/
structure RawSheet where
  ncols : Nat
  rows : List (List Val)

/-- Whether every cell of the row is `NaN` (`dropna(how='all')` removes
exactly these rows). -/
def rowAllNan (r : List Val) : Bool := r.all (fun v => v.isNan)

/-- Cell `j` of a parsed row; pandas pads short rows with `NaN`. -/
def cellAt (r : List Val) (j : Nat) : Val := r.getD j .nan

/-- Model of `astype(int)` on one cell: integers pass, numeric strings parse,
anything else (including `NaN`) raises. -/
def toIntVal : Val → Option Int
  | .int n => some n
  | .str s => s.toInt?
  | .nan => none

/-- Model of `raw_ids.astype(int)`: all-or-nothing integer cast of the id column
(`excel_to_concepts.py` lines 53–56). -/
def castInts : List Val → Option (List Int)
  | [] => some []
  | v :: vs =>
    match toIntVal v, castInts vs with
    | some n, some ns => some (n :: ns)
    | _, _ => none

/-- The data rows of a sheet: blank rows dropped, header row skipped
(lines 32–41). -/
def sheetDataRows (s : RawSheet) : List (List Val) :=
  (s.rows.filter (fun r => !rowAllNan r)).drop 1

/-- The id column (lines 44–56): column 0 cast to int when possible, kept
raw otherwise; with fewer than two columns, the row index is the id. -/
def sheetIds (s : RawSheet) : List Val :=
  if 2 ≤ s.ncols then
    match castInts ((sheetDataRows s).map (fun r => cellAt r 0)) with
    | some ns => ns.map Val.int
    | none => (sheetDataRows s).map (fun r => cellAt r 0)
  else (List.range (sheetDataRows s).length).map (fun i => Val.int i)

/-- The value column (lines 44–59): column 1 (or column 0 in the
single-column fallback), blanks dropped, cast to string and stripped. -/
def sheetVals (s : RawSheet) : List String :=
  ((if 2 ≤ s.ncols then (sheetDataRows s).map (fun r => cellAt r 1)
    else (sheetDataRows s).map (fun r => cellAt r 0)).filter
      (fun v => !v.isNan)).map (fun v => pyStrip (valToStr v))

/-- One sheet of `excel_to_concept_mapping` (lines 28–66): skip the sheet
when fewer than two rows survive blank removal, else zip ids with values
(truncating at the shorter column, as `range(min(len, len))` does). -/
def sheetPairs (s : RawSheet) : Option (List (Val × String)) :=
  if (s.rows.filter (fun r => !rowAllNan r)).length < 2 then none
  else some ((sheetIds s).zip (sheetVals s))

/-- Embedding of `excel_to_concept_mapping` (lines 13–74): parse every sheet, then
drop the sheets whose pair list came out empty (line 69). -/
def excel_to_concept_mapping (book : List (String × RawSheet)) :
    List (String × List (Val × String)) :=
  (book.filterMap (fun ns =>
    match sheetPairs ns.2 with
    | some ps => some (ns.1, ps)
    | none => none)).filter (fun ns => !ns.2.isEmpty)

/-- A sheet with a header row and exactly one data row. -/
def c8SheetOne : RawSheet :=
  { ncols := 2,
    rows := [[Val.str "id", Val.str "value"], [Val.int 1, Val.str " Hebrew "]] }

/-- A sheet with three data rows whose middle value cell is blank. -/
def c8SheetGap : RawSheet :=
  { ncols := 2,
    rows := [[Val.str "id", Val.str "value"],
             [Val.int 1, Val.str "Hebrew"],
             [Val.int 2, Val.nan],
             [Val.int 3, Val.str "English"]] }

/-! ### Row- and frame-level lemmas for the upsert engine -/

theorem hasKey_iff_mem (r : DfRow) (k : String) :
    hasKey r k = true ↔ k ∈ r.map Prod.fst := by
  simp [hasKey, List.any_eq_true]

theorem rowGet_of_hasKey_false (r : DfRow) (k : String)
    (h : hasKey r k = false) : rowGet r k = .nan := by
  unfold rowGet
  have hf : r.find? (fun kv => kv.1 == k) = none := by
    rw [List.find?_eq_none]
    intro kv hkv
    simp [hasKey, List.any_eq_true] at h
    simpa using h kv.1 kv.2 hkv
  rw [hf]

theorem find?_none_of_hasKey_false (r : DfRow) (k : String)
    (h : hasKey r k = false) : r.find? (fun kv => kv.1 == k) = none := by
  rw [List.find?_eq_none]
  intro kv hkv
  simp [hasKey, List.any_eq_true] at h
  simpa using h kv.1 kv.2 hkv

theorem find?_ne_key (r : DfRow) (k k2 : String) (v : Val) (h : k2 ≠ k) :
    List.find? (fun kv => kv.1 == k2) (r.map (fun kv => if kv.1 == k then (k, v) else kv))
      = List.find? (fun kv => kv.1 == k2) r := by
  induction r with
  | nil => rfl
  | cons kv r ih =>
    rw [List.map_cons]
    by_cases hk : kv.1 = k
    · have e : (if (kv.1 == k) then ((k, v) : String × Val) else kv) = (k, v) :=
        if_pos (by simpa using hk)
      have h2 : ((((k, v) : String × Val).1 == k2)) = false := by
        simpa using fun he => h he.symm
      have h3 : ((kv.1 == k2)) = false := by
        rw [hk]; simpa using fun he => h he.symm
      rw [e, List.find?_cons, List.find?_cons]
      simp only [h2, h3]
      exact ih
    · have e : (if (kv.1 == k) then ((k, v) : String × Val) else kv) = kv :=
        if_neg (by simpa using hk)
      rw [e, List.find?_cons, List.find?_cons]
      by_cases hk2 : kv.1 = k2
      · simp only [show ((kv.1 == k2)) = true by simpa using hk2]
      · simp only [show ((kv.1 == k2)) = false by simpa using hk2]
        exact ih

theorem find?_eq_key (r : DfRow) (k : String) (v : Val) (h : hasKey r k = true) :
    List.find? (fun kv => kv.1 == k) (r.map (fun kv => if kv.1 == k then (k, v) else kv))
      = some (k, v) := by
  induction r with
  | nil => simp [hasKey] at h
  | cons kv r ih =>
    rw [List.map_cons]
    by_cases hk : kv.1 = k
    · have e : (if (kv.1 == k) then ((k, v) : String × Val) else kv) = (k, v) :=
        if_pos (by simpa using hk)
      rw [e, List.find?_cons]
      simp only [show ((((k, v) : String × Val).1 == k)) = true by simp]
    · have e : (if (kv.1 == k) then ((k, v) : String × Val) else kv) = kv :=
        if_neg (by simpa using hk)
      have h2 : hasKey r k = true := by
        simp only [hasKey, List.any_cons, Bool.or_eq_true] at h
        rcases h with h | h
        · exact absurd (by simpa using h) hk
        · simpa [hasKey] using h
      rw [e, List.find?_cons]
      simp only [show ((kv.1 == k)) = false by simpa using hk]
      exact ih h2

theorem rowGet_rowSet (r : DfRow) (k k2 : String) (v : Val) :
    rowGet (rowSet r k v) k2 = if k2 = k then v else rowGet r k2 := by
  unfold rowSet
  by_cases hhk : hasKey r k
  · rw [if_pos hhk]
    by_cases he : k2 = k
    · subst he
      unfold rowGet
      rw [find?_eq_key r k2 v hhk, if_pos rfl]
    · unfold rowGet
      rw [find?_ne_key r k k2 v he, if_neg he]
  · rw [if_neg hhk]
    have hhk2 : hasKey r k = false := by simpa using hhk
    by_cases he : k2 = k
    · subst he
      unfold rowGet
      rw [List.find?_append, find?_none_of_hasKey_false r k2 hhk2]
      simp
    · unfold rowGet
      rw [List.find?_append, if_neg he]
      have hf2 : List.find? (fun kv => kv.1 == k2) [(k, v)] = none := by
        simpa using fun hcon => he hcon.symm
      rw [hf2]
      cases List.find? (fun kv => kv.1 == k2) r <;> simp

theorem keys_rowSet (r : DfRow) (k : String) (v : Val) :
    (rowSet r k v).map Prod.fst
      = if hasKey r k then r.map Prod.fst else r.map Prod.fst ++ [k] := by
  unfold rowSet
  by_cases hhk : hasKey r k
  · rw [if_pos hhk, if_pos hhk, List.map_map]
    apply List.map_congr_left
    intro kv _
    by_cases hk : kv.1 = k
    · simp [hk]
    · simp [hk]
  · rw [if_neg hhk, if_neg hhk]
    simp

theorem hasKey_rowSet (r : DfRow) (k k2 : String) (v : Val) :
    hasKey (rowSet r k v) k2 = (hasKey r k2 || (k2 == k)) := by
  rcases h : hasKey r k2 with _ | _
  · rcases h2 : (k2 == k) with _ | _
    · simp only [Bool.or_false]
      by_contra hc
      have : k2 ∈ (rowSet r k v).map Prod.fst := by
        rcases hx : hasKey (rowSet r k v) k2 with _ | _
        · rw [hx] at hc; exact absurd rfl hc
        · exact (hasKey_iff_mem _ _).mp hx
      rw [keys_rowSet] at this
      by_cases hhk : hasKey r k
      · rw [if_pos hhk] at this
        have := (hasKey_iff_mem r k2).mpr this
        rw [this] at h; cases h
      · rw [if_neg hhk] at this
        rcases List.mem_append.mp this with hm | hm
        · have := (hasKey_iff_mem r k2).mpr hm
          rw [this] at h; cases h
        · simp at hm
          rw [hm] at h2; simp at h2
    · have hk : k2 = k := by simpa using h2
      subst hk
      have : k2 ∈ (rowSet r k2 v).map Prod.fst := by
        rw [keys_rowSet]
        by_cases hhk : hasKey r k2
        · rw [hhk] at h; cases h
        · rw [if_neg hhk]; simp
      simp [(hasKey_iff_mem _ _).mpr this]
  · have : k2 ∈ (rowSet r k v).map Prod.fst := by
      rw [keys_rowSet]
      by_cases hhk : hasKey r k
      · rw [if_pos hhk]; exact (hasKey_iff_mem r k2).mp h
      · rw [if_neg hhk]
        exact List.mem_append.mpr (Or.inl ((hasKey_iff_mem r k2).mp h))
    simp [(hasKey_iff_mem _ _).mpr this]

theorem keys_nodup_rowSet (r : DfRow) (k : String) (v : Val)
    (h : (r.map Prod.fst).Nodup) : ((rowSet r k v).map Prod.fst).Nodup := by
  rw [keys_rowSet]
  by_cases hhk : hasKey r k
  · rwa [if_pos hhk]
  · rw [if_neg hhk]
    have hk : k ∉ r.map Prod.fst := fun hm => hhk ((hasKey_iff_mem r k).mpr hm)
    refine List.Nodup.append h (List.nodup_singleton k) ?_
    intro a ha hb
    simp at hb
    subst hb
    exact hk ha

theorem rowGet_updRow (cols : List String) (row : DfRow) (k : String) :
    ∀ old : DfRow, (row.map Prod.fst).Nodup →
    rowGet (updRow cols row old) k =
      if (cols.contains k && hasKey row k) then rowGet row k else rowGet old k := by
  induction row with
  | nil =>
    intro old _
    simp [updRow, hasKey]
  | cons kv rest ih =>
    intro old hnd
    rw [List.map_cons] at hnd
    have hnd2 : (rest.map Prod.fst).Nodup := (List.nodup_cons.mp hnd).2
    have hkv : kv.1 ∉ rest.map Prod.fst := (List.nodup_cons.mp hnd).1
    have step : updRow cols (kv :: rest) old
        = updRow cols rest (if cols.contains kv.1 then rowSet old kv.1 kv.2 else old) := by
      simp [updRow]
    rw [step, ih _ hnd2]
    by_cases hk : kv.1 = k
    · subst hk
      have hrest : hasKey rest kv.1 = false := by
        rcases hc : hasKey rest kv.1 with _ | _
        · rfl
        · exact absurd ((hasKey_iff_mem _ _).mp hc) hkv
      have hkhead : hasKey (kv :: rest) kv.1 = true := by
        simp [hasKey]
      rw [hrest, hkhead]
      simp only [Bool.and_false, if_false, Bool.and_true]
      by_cases hc : cols.contains kv.1
      · rw [if_pos hc, if_pos hc, rowGet_rowSet]
        simp [rowGet, List.find?_cons]
      · rw [if_neg hc]
        simp only [show (cols.contains kv.1) = false by simpa using hc]
        simp
    · have hhead : rowGet (kv :: rest) k = rowGet rest k := by
        simp [rowGet, List.find?_cons, show ((kv.1 == k)) = false by simpa using hk]
      have hkk : hasKey (kv :: rest) k = hasKey rest k := by
        simp [hasKey, List.any_cons, show ((kv.1 == k)) = false by simpa using hk]
      rw [hhead, hkk]
      have hold : rowGet (if cols.contains kv.1 then rowSet old kv.1 kv.2 else old) k
          = rowGet old k := by
        by_cases hc : cols.contains kv.1
        · rw [if_pos hc, rowGet_rowSet, if_neg (fun he => hk he.symm)]
        · rw [if_neg hc]
      rw [hold]

theorem mem_keys_updRow (cols : List String) (row : DfRow) (k : String) :
    ∀ old : DfRow, k ∈ (updRow cols row old).map Prod.fst →
      k ∈ old.map Prod.fst ∨ cols.contains k = true := by
  induction row with
  | nil => intro old h; exact Or.inl (by simpa [updRow] using h)
  | cons kv rest ih =>
    intro old h
    have step : updRow cols (kv :: rest) old
        = updRow cols rest (if cols.contains kv.1 then rowSet old kv.1 kv.2 else old) := by
      simp [updRow]
    rw [step] at h
    rcases ih _ h with hm | hm
    · by_cases hc : cols.contains kv.1
      · rw [if_pos hc] at hm
        rw [keys_rowSet] at hm
        by_cases hhk : hasKey old kv.1
        · rw [if_pos hhk] at hm; exact Or.inl hm
        · rw [if_neg hhk] at hm
          rcases List.mem_append.mp hm with hm2 | hm2
          · exact Or.inl hm2
          · simp at hm2; subst hm2; exact Or.inr hc
      · rw [if_neg hc] at hm; exact Or.inl hm
    · exact Or.inr hm

theorem foldl_rowSet_rowGet (cs : List String) (g : String → Val) (k : String)
    (h : cs.contains k = false) :
    ∀ r : DfRow, rowGet (cs.foldl (fun r c => rowSet r c (g c)) r) k = rowGet r k := by
  induction cs with
  | nil => intro r; rfl
  | cons c cs ih =>
    intro r
    have hne : k ≠ c := by
      intro he; subst he
      simp [List.contains_cons] at h
    have h2 : cs.contains k = false := by
      simp [List.contains_cons] at h
      simpa using h.2
    rw [List.foldl_cons, ih h2, rowGet_rowSet, if_neg hne]

theorem foldl_rowSet_hasKey (cs : List String) (g : String → Val) (k : String) :
    ∀ r : DfRow, hasKey r k = true →
      hasKey (cs.foldl (fun r c => rowSet r c (g c)) r) k = true := by
  induction cs with
  | nil => intro r h; exact h
  | cons c cs ih =>
    intro r h
    rw [List.foldl_cons]
    exact ih _ (by rw [hasKey_rowSet, h]; rfl)

theorem foldl_rowSet_nodup (cs : List String) (g : String → Val) :
    ∀ r : DfRow, (r.map Prod.fst).Nodup →
      ((cs.foldl (fun r c => rowSet r c (g c)) r).map Prod.fst).Nodup := by
  induction cs with
  | nil => intro r h; exact h
  | cons c cs ih =>
    intro r h
    rw [List.foldl_cons]
    exact ih _ (keys_nodup_rowSet _ _ _ h)

theorem buildRow_eq_foldl (fid ftype : String) (concepts : List String)
    (extracted : List (String × Val)) :
    buildRow fid ftype concepts extracted
      = concepts.foldl
          (fun r c => rowSet r c
            ((fun c => match extracted.find? (fun kv => kv.1 == c) with
              | some kv => kv.2
              | none => .str "Not found") c))
          [("ID", .str fid), ("File Type", .str ftype)] := rfl

theorem buildRow_keys_nodup (fid ftype : String) (concepts : List String)
    (extracted : List (String × Val)) :
    ((buildRow fid ftype concepts extracted).map Prod.fst).Nodup := by
  rw [buildRow_eq_foldl]
  exact foldl_rowSet_nodup _ _ _ (by simp)

theorem buildRow_hasKey_ID (fid ftype : String) (concepts : List String)
    (extracted : List (String × Val)) :
    hasKey (buildRow fid ftype concepts extracted) "ID" = true := by
  rw [buildRow_eq_foldl]
  exact foldl_rowSet_hasKey _ _ _ _ (by simp [hasKey])

theorem buildRow_rowGet_ID (fid ftype : String) (concepts : List String)
    (extracted : List (String × Val)) (h : concepts.contains "ID" = false) :
    rowGet (buildRow fid ftype concepts extracted) "ID" = .str fid := by
  rw [buildRow_eq_foldl, foldl_rowSet_rowGet _ _ _ h]
  rfl

theorem length_modifyIdx (l : List α) (i : Nat) (f : α → α) :
    (modifyIdx l i f).length = l.length := by
  induction l generalizing i with
  | nil => rfl
  | cons a as ih =>
    cases i with
    | zero => simp [modifyIdx]
    | succ n => simp [modifyIdx, ih]

theorem firstIdx_lt (p : α → Bool) (l : List α) (h : l.any p = true) :
    firstIdx p l < l.length := by
  induction l with
  | nil => simp at h
  | cons a as ih =>
    by_cases hp : p a
    · simp [firstIdx, hp]
    · rw [List.any_cons] at h
      rcases Bool.or_eq_true_iff.mp h with h2 | h2
      · exact absurd h2 hp
      · simp only [firstIdx, if_neg hp, List.length_cons]
        exact Nat.succ_lt_succ (ih h2)

theorem map_modifyIdx_firstIdx (p : α → Bool) (f : α → α) (g : α → β)
    (hf : ∀ a, p a = true → g (f a) = g a) :
    ∀ l : List α, l.any p = true →
      (modifyIdx l (firstIdx p l) f).map g = l.map g := by
  intro l
  induction l with
  | nil => intro h; simp at h
  | cons a as ih =>
    intro h
    by_cases hp : p a
    · simp only [firstIdx, if_pos hp, modifyIdx, List.map_cons, hf a hp]
    · rw [List.any_cons] at h
      rcases Bool.or_eq_true_iff.mp h with h2 | h2
      · exact absurd h2 hp
      · simp only [firstIdx, if_neg hp, modifyIdx, List.map_cons, ih h2]

theorem mem_modifyIdx (l : List α) (i : Nat) (f : α → α) :
    ∀ x ∈ modifyIdx l i f, x ∈ l ∨ ∃ a ∈ l, x = f a := by
  induction l generalizing i with
  | nil => intro x hx; simp [modifyIdx] at hx
  | cons a as ih =>
    intro x hx
    cases i with
    | zero =>
      simp only [modifyIdx, List.mem_cons] at hx
      rcases hx with hx | hx
      · exact Or.inr ⟨a, List.mem_cons_self a as, hx⟩
      · exact Or.inl (List.mem_cons_of_mem a hx)
    | succ n =>
      simp only [modifyIdx, List.mem_cons] at hx
      rcases hx with hx | hx
      · exact Or.inl (by simp [hx])
      · rcases ih n x hx with h2 | ⟨b, hb, he⟩
        · exact Or.inl (List.mem_cons_of_mem a h2)
        · exact Or.inr ⟨b, List.mem_cons_of_mem a hb, he⟩

theorem getD_modifyIdx_ne (l : List α) (i j : Nat) (f : α → α) (d : α)
    (h : j ≠ i) : (modifyIdx l i f).getD j d = l.getD j d := by
  induction l generalizing i j with
  | nil => rfl
  | cons a as ih =>
    cases i with
    | zero =>
      cases j with
      | zero => exact absurd rfl h
      | succ m => simp [modifyIdx]
    | succ n =>
      cases j with
      | zero => simp [modifyIdx]
      | succ m =>
        simp only [modifyIdx, List.getD_cons_succ]
        exact ih n m (fun he => h (by rw [he]))

theorem getD_modifyIdx_self (l : List α) (i : Nat) (f : α → α) (d : α)
    (h : i < l.length) : (modifyIdx l i f).getD i d = f (l.getD i d) := by
  induction l generalizing i with
  | nil => simp at h
  | cons a as ih =>
    cases i with
    | zero => simp [modifyIdx]
    | succ n =>
      simp only [modifyIdx, List.getD_cons_succ]
      exact ih n (Nat.lt_of_succ_lt_succ h)

theorem getD_firstIdx (p : α → Bool) (l : List α) (d : α) (h : l.any p = true) :
    p (l.getD (firstIdx p l) d) = true := by
  induction l with
  | nil => simp at h
  | cons a as ih =>
    by_cases hp : p a
    · simp [firstIdx, hp]
    · rw [List.any_cons] at h
      rcases Bool.or_eq_true_iff.mp h with h2 | h2
      · exact absurd h2 hp
      · simp only [firstIdx, if_neg hp, List.getD_cons_succ]
        exact ih h2

theorem contains_iff_mem (l : List String) (x : String) :
    l.contains x = true ↔ x ∈ l := by
  simp [List.contains]

theorem upsert_found_eq (f : Frame) (row : DfRow) (fid : String)
    (hcol : f.cols.contains "ID" = true)
    (hmem : (f.rows.map idOf).contains fid = true) :
    upsertSheet f row fid
      = { cols := f.cols,
          rows := modifyIdx f.rows (firstIdx (fun r => idOf r == fid) f.rows)
                    (updRow f.cols row) } := by
  unfold upsertSheet
  rw [if_pos hcol, if_pos hmem]

theorem upsert_not_found_eq (f : Frame) (row : DfRow) (fid : String)
    (h : f.cols.contains "ID" = false ∨ (f.rows.map idOf).contains fid = false) :
    upsertSheet f row fid = appendRow f row := by
  unfold upsertSheet
  rcases h with h | h
  · rw [if_neg (fun hc => Bool.false_ne_true (h.symm.trans hc))]
  · by_cases hcol : f.cols.contains "ID"
    · rw [if_pos hcol, if_neg (fun hc => Bool.false_ne_true (h.symm.trans hc))]
    · rw [if_neg hcol]

theorem any_of_mem_ids (f : Frame) (fid : String)
    (hmem : (f.rows.map idOf).contains fid = true) :
    f.rows.any (fun r => idOf r == fid) = true := by
  rw [contains_iff_mem] at hmem
  rcases List.mem_map.mp hmem with ⟨r, hr, he⟩
  rw [List.any_eq_true]
  exact ⟨r, hr, by simp [he]⟩

theorem ids_upsert_found (f : Frame) (row : DfRow) (fid : String)
    (hcol : f.cols.contains "ID" = true)
    (hmem : (f.rows.map idOf).contains fid = true)
    (hnd : (row.map Prod.fst).Nodup)
    (hrid : rowGet row "ID" = .str fid) (hk : hasKey row "ID" = true) :
    (upsertSheet f row fid).rows.map idOf = f.rows.map idOf := by
  rw [upsert_found_eq f row fid hcol hmem]
  apply map_modifyIdx_firstIdx (fun r => idOf r == fid) (updRow f.cols row) idOf
  · intro a ha
    have hup : rowGet (updRow f.cols row a) "ID" = rowGet row "ID" := by
      rw [rowGet_updRow f.cols row "ID" a hnd, hcol, hk]
      rfl
    have ha2 : idOf a = fid := by simpa using ha
    rw [idOf, hup, hrid, ha2]
    rfl
  · exact any_of_mem_ids f fid hmem

theorem wf_upsert_found (f : Frame) (row : DfRow) (fid : String)
    (hcol : f.cols.contains "ID" = true)
    (hmem : (f.rows.map idOf).contains fid = true)
    (hWF : FrameWF f) : FrameWF (upsertSheet f row fid) := by
  rw [upsert_found_eq f row fid hcol hmem]
  intro r hr kv hkv
  rcases mem_modifyIdx _ _ _ r hr with hm | ⟨a, ha, he⟩
  · exact hWF r hm kv hkv
  · subst he
    have hmem2 : kv.1 ∈ (updRow f.cols row a).map Prod.fst :=
      List.mem_map.mpr ⟨kv, hkv, rfl⟩
    rcases mem_keys_updRow f.cols row kv.1 a hmem2 with hm2 | hm2
    · rcases List.mem_map.mp hm2 with ⟨kv2, hkv2, he2⟩
      have := hWF a ha kv2 hkv2
      rwa [he2] at this
    · exact hm2

theorem ids_appendRow (f : Frame) (row : DfRow) :
    (appendRow f row).rows.map idOf = f.rows.map idOf ++ [idOf row] := by
  simp [appendRow]

theorem wf_appendRow (f : Frame) (row : DfRow) (hWF : FrameWF f) :
    FrameWF (appendRow f row) := by
  intro r hr kv hkv
  rw [contains_iff_mem, appendRow, List.mem_append]
  rcases List.mem_append.mp hr with hm | hm
  · exact Or.inl ((contains_iff_mem _ _).mp (hWF r hm kv hkv))
  · simp only [List.mem_singleton] at hm
    subst hm
    by_cases hc : f.cols.contains kv.1
    · exact Or.inl ((contains_iff_mem _ _).mp hc)
    · refine Or.inr (List.mem_filter.mpr ⟨List.mem_map.mpr ⟨kv, hkv, rfl⟩, ?_⟩)
      simpa using hc

theorem ids_all_nan (f : Frame) (hcol : f.cols.contains "ID" = false)
    (hWF : FrameWF f) : ∀ r ∈ f.rows, idOf r = "nan" := by
  intro r hr
  have hk : hasKey r "ID" = false := by
    rcases hx : hasKey r "ID" with _ | _
    · rfl
    · exfalso
      rw [hasKey, List.any_eq_true] at hx
      rcases hx with ⟨kv, hkv, he⟩
      have he2 : kv.1 = "ID" := by simpa using he
      have := hWF r hr kv hkv
      rw [he2] at this
      rw [this] at hcol
      cases hcol
  rw [idOf, rowGet_of_hasKey_false r "ID" hk]
  rfl

theorem id_col_of_mem_ids (f : Frame) (fid : String)
    (hmem : fid ∈ f.rows.map idOf) (hnn : fid ≠ "nan") (hWF : FrameWF f) :
    f.cols.contains "ID" = true := by
  by_contra hc
  have hc2 : f.cols.contains "ID" = false := by simpa using hc
  rcases List.mem_map.mp hmem with ⟨r, hr, he⟩
  exact hnn (he ▸ ids_all_nan f hc2 hWF r hr)

theorem upsert_step (f : Frame) (row : DfRow) (fid : String)
    (hWF : FrameWF f) (hND : (f.rows.map idOf).Nodup)
    (hnd : (row.map Prod.fst).Nodup) (hrid : rowGet row "ID" = .str fid)
    (hk : hasKey row "ID" = true) (hnn : fid ≠ "nan") :
    FrameWF (upsertSheet f row fid) ∧
    ((upsertSheet f row fid).rows.map idOf).Nodup ∧
    fid ∈ (upsertSheet f row fid).rows.map idOf ∧
    (∀ g, g ∈ f.rows.map idOf → g ∈ (upsertSheet f row fid).rows.map idOf) := by
  have hidrow : idOf row = fid := by rw [idOf, hrid]; rfl
  by_cases hcol : f.cols.contains "ID" = true
  · by_cases hmem : (f.rows.map idOf).contains fid = true
    · have hids := ids_upsert_found f row fid hcol hmem hnd hrid hk
      refine ⟨wf_upsert_found f row fid hcol hmem hWF, ?_, ?_, ?_⟩
      · rw [hids]; exact hND
      · rw [hids]; exact (contains_iff_mem _ _).mp hmem
      · intro g hg; rw [hids]; exact hg
    · have hmem2 : (f.rows.map idOf).contains fid = false := by
        rcases hx : (f.rows.map idOf).contains fid with _ | _
        · rfl
        · exact absurd hx hmem
      have happ := upsert_not_found_eq f row fid (Or.inr hmem2)
      rw [happ, ids_appendRow, hidrow]
      refine ⟨wf_appendRow f row hWF, ?_, ?_, ?_⟩
      · refine List.Nodup.append hND (List.nodup_singleton fid) ?_
        intro a ha hb
        simp only [List.mem_singleton] at hb
        subst hb
        exact absurd ((contains_iff_mem _ _).mpr ha) (by rw [hmem2]; simp)
      · exact List.mem_append.mpr (Or.inr (by simp))
      · intro g hg; exact List.mem_append.mpr (Or.inl hg)
  · have hcol2 : f.cols.contains "ID" = false := by
      rcases hx : f.cols.contains "ID" with _ | _
      · rfl
      · exact absurd hx hcol
    have happ := upsert_not_found_eq f row fid (Or.inl hcol2)
    rw [happ, ids_appendRow, hidrow]
    have hnan := ids_all_nan f hcol2 hWF
    refine ⟨wf_appendRow f row hWF, ?_, ?_, ?_⟩
    · refine List.Nodup.append hND (List.nodup_singleton fid) ?_
      intro a ha hb
      simp only [List.mem_singleton] at hb
      subst hb
      rcases List.mem_map.mp ha with ⟨r, hr, he⟩
      exact hnn (he ▸ hnan r hr)
    · exact List.mem_append.mpr (Or.inr (by simp))
    · intro g hg; exact List.mem_append.mpr (Or.inl hg)

theorem runUpserts_inv (concepts : List String) (hID : concepts.contains "ID" = false) :
    ∀ (ops : List UpOp), (∀ op ∈ ops, op.fid ≠ "nan") →
    ∀ f : Frame, FrameWF f → (f.rows.map idOf).Nodup →
      FrameWF (runUpserts concepts f ops) ∧
      ((runUpserts concepts f ops).rows.map idOf).Nodup ∧
      (∀ g, g ∈ f.rows.map idOf → g ∈ (runUpserts concepts f ops).rows.map idOf) ∧
      (∀ op ∈ ops, op.fid ∈ (runUpserts concepts f ops).rows.map idOf) := by
  intro ops
  induction ops with
  | nil =>
    intro _ f hWF hND
    exact ⟨hWF, hND, fun g hg => hg, by simp⟩
  | cons op rest ih =>
    intro hops f hWF hND
    have hop : op.fid ≠ "nan" := hops op (List.mem_cons_self op rest)
    have hrest : ∀ o ∈ rest, o.fid ≠ "nan" :=
      fun o ho => hops o (List.mem_cons_of_mem op ho)
    have hstep := upsert_step f (buildRow op.fid op.ftype concepts op.extracted) op.fid
      hWF hND (buildRow_keys_nodup _ _ _ _)
      (buildRow_rowGet_ID _ _ _ _ hID) (buildRow_hasKey_ID _ _ _ _) hop
    have hrun : runUpserts concepts f (op :: rest)
        = runUpserts concepts
            (upsertSheet f (buildRow op.fid op.ftype concepts op.extracted) op.fid) rest := by
      simp [runUpserts]
    rw [hrun]
    rcases hstep with ⟨hWF1, hND1, hmem1, hmono1⟩
    rcases ih hrest _ hWF1 hND1 with ⟨hWF2, hND2, hmono2, hall2⟩
    refine ⟨hWF2, hND2, fun g hg => hmono2 g (hmono1 g hg), ?_⟩
    intro o ho
    rcases List.mem_cons.mp ho with he | hm
    · subst he
      exact hmono2 o.fid hmem1
    · exact hall2 o hm

theorem filter_idOf_length_one (l : List DfRow) (fid : String)
    (hND : (l.map idOf).Nodup) (hmem : fid ∈ l.map idOf) :
    (l.filter (fun r => idOf r == fid)).length = 1 := by
  induction l with
  | nil => simp at hmem
  | cons r rest ih =>
    rw [List.map_cons, List.nodup_cons] at hND
    by_cases he : idOf r = fid
    · have hno : ∀ x ∈ rest, ¬ (idOf x == fid) = true := by
        intro x hx hc
        exact hND.1 (he ▸ (by simpa using hc : idOf x = fid) ▸ List.mem_map.mpr ⟨x, hx, rfl⟩)
      rw [List.filter_cons_of_pos (by simpa using he)]
      rw [List.length_cons, List.filter_eq_nil_iff.mpr hno, List.length_nil]
    · have hmem2 : fid ∈ rest.map idOf := by
        rw [List.map_cons, List.mem_cons] at hmem
        rcases hmem with h2 | h2
        · exact absurd h2.symm he
        · exact h2
      rw [List.filter_cons_of_neg (by simpa using he)]
      exact ih hND.2 hmem2

theorem digits_ne_nan (s : String) (h : s.data.all Char.isDigit = true) :
    s ≠ "nan" := by
  intro he
  subst he
  exact absurd h (by decide)

/-- C1: over any sequence of `update_excel_with_json_data` upserts against a
sheet of the concept mapping — starting from any store state the code itself
can produce (rows' keys drawn from the columns, string-normalized IDs
duplicate-free) — the sheet ends with pairwise-distinct string-normalized
IDs and exactly one row for each upserted ID; moreover, whenever the
incoming ID (a digit run from `extract_file_id`) is already present, the
upsert rewrites that row in place and never changes the row count. -/
theorem c1_upsert_unique_rows (concepts : List String) (f0 : Frame) (ops : List UpOp)
    (hID : concepts.contains "ID" = false)
    (hops : ∀ op ∈ ops, op.fid ≠ "" ∧ op.fid.data.all Char.isDigit = true)
    (hWF : FrameWF f0) (hND : (f0.rows.map idOf).Nodup) :
    ((runUpserts concepts f0 ops).rows.map idOf).Nodup ∧
    (∀ op ∈ ops,
      ((runUpserts concepts f0 ops).rows.filter (fun r => idOf r == op.fid)).length = 1) ∧
    (∀ (f : Frame) (row : DfRow) (fid : String), FrameWF f →
      fid.data.all Char.isDigit = true → fid ∈ f.rows.map idOf →
      (upsertSheet f row fid).rows.length = f.rows.length) := by
  have hnn : ∀ op ∈ ops, op.fid ≠ "nan" :=
    fun op hop => digits_ne_nan op.fid (hops op hop).2
  rcases runUpserts_inv concepts hID ops hnn f0 hWF hND with ⟨_, hND2, _, hall⟩
  refine ⟨hND2, ?_, ?_⟩
  · intro op hop
    exact filter_idOf_length_one _ _ hND2 (hall op hop)
  · intro f row fid hWFf hdig hmem
    have hcol := id_col_of_mem_ids f fid hmem (digits_ne_nan fid hdig) hWFf
    rw [upsert_found_eq f row fid hcol ((contains_iff_mem _ _).mpr hmem)]
    exact length_modifyIdx _ _ _

theorem c1_upsert_unique_rows_w :
    ((runUpserts ["Language"] bootFrame
        [⟨"482", "pdf", [("Language", Val.str "Hebrew")]⟩,
         ⟨"482", "pdf", [("Language", Val.str "English")]⟩]).rows.filter
      (fun r => idOf r == "482")).length = 1 :=
  (c1_upsert_unique_rows ["Language"] bootFrame
      [⟨"482", "pdf", [("Language", Val.str "Hebrew")]⟩,
       ⟨"482", "pdf", [("Language", Val.str "English")]⟩]
      (by decide) (by decide) (by decide) (by decide)).2.1
    ⟨"482", "pdf", [("Language", Val.str "English")]⟩ (by decide)

/-- C2 (amended): when `update_excel_with_json_data` finds an existing row
whose string-normalized key equals the incoming ID, it rewrites, among the
columns supplied by the incoming row, exactly those that already exist in
the sheet; every other existing cell of that row, every other row, and the
sheet's column list are left unchanged — in particular the column set does
NOT grow on this path, and a supplied column the sheet lacks is silently
discarded rather than added. -/
theorem c2_found_update_frame (f : Frame) (row : DfRow) (fid : String)
    (hcol : f.cols.contains "ID" = true)
    (hmem : (f.rows.map idOf).contains fid = true)
    (hnd : (row.map Prod.fst).Nodup) :
    (upsertSheet f row fid).cols = f.cols ∧
    (upsertSheet f row fid).rows.length = f.rows.length ∧
    (∀ j, j ≠ firstIdx (fun r => idOf r == fid) f.rows →
      (upsertSheet f row fid).rows.getD j [] = f.rows.getD j []) ∧
    (∀ k, hasKey row k = false →
      rowGet ((upsertSheet f row fid).rows.getD (firstIdx (fun r => idOf r == fid) f.rows) []) k
        = rowGet (f.rows.getD (firstIdx (fun r => idOf r == fid) f.rows) []) k) ∧
    (∀ k, f.cols.contains k = true → hasKey row k = true →
      rowGet ((upsertSheet f row fid).rows.getD (firstIdx (fun r => idOf r == fid) f.rows) []) k
        = rowGet row k) ∧
    (∀ k, f.cols.contains k = false →
      rowGet ((upsertSheet f row fid).rows.getD (firstIdx (fun r => idOf r == fid) f.rows) []) k
        = rowGet (f.rows.getD (firstIdx (fun r => idOf r == fid) f.rows) []) k) := by
  have heq := upsert_found_eq f row fid hcol hmem
  have hlt : firstIdx (fun r => idOf r == fid) f.rows < f.rows.length :=
    firstIdx_lt _ _ (any_of_mem_ids f fid hmem)
  have hself : (upsertSheet f row fid).rows.getD (firstIdx (fun r => idOf r == fid) f.rows) []
      = updRow f.cols row (f.rows.getD (firstIdx (fun r => idOf r == fid) f.rows) []) := by
    rw [heq]
    exact getD_modifyIdx_self _ _ _ _ hlt
  refine ⟨by rw [heq], by rw [heq]; exact length_modifyIdx _ _ _, ?_, ?_, ?_, ?_⟩
  · intro j hj
    rw [heq]
    exact getD_modifyIdx_ne _ _ _ _ _ hj
  · intro k hk
    rw [hself, rowGet_updRow f.cols row k _ hnd, hk]
    simp
  · intro k hck hk
    rw [hself, rowGet_updRow f.cols row k _ hnd, hck, hk]
    rfl
  · intro k hck
    rw [hself, rowGet_updRow f.cols row k _ hnd, hck]
    rfl

theorem c2_cex :
    (upsertSheet c2Frame c2Row "1").cols = ["ID", "File Type"] ∧
    "Skill" ∉ (upsertSheet c2Frame c2Row "1").cols ∧
    rowGet ((upsertSheet c2Frame c2Row "1").rows.getD 0 []) "Skill" = Val.nan := by
  decide

theorem c2_found_update_frame_w :
    (upsertSheet c2Frame [("ID", Val.str "1"), ("File Type", Val.str "docx")] "1").cols
      = c2Frame.cols ∧
    rowGet ((upsertSheet c2Frame [("ID", Val.str "1"), ("File Type", Val.str "docx")] "1").rows.getD
        (firstIdx (fun r => idOf r == "1") c2Frame.rows) []) "File Type"
      = Val.str "docx" :=
  ⟨(c2_found_update_frame c2Frame [("ID", Val.str "1"), ("File Type", Val.str "docx")] "1"
      (by decide) (by decide) (by decide)).1,
   (c2_found_update_frame c2Frame [("ID", Val.str "1"), ("File Type", Val.str "docx")] "1"
      (by decide) (by decide) (by decide)).2.2.2.2.1 "File Type" (by decide) (by decide)⟩

/-- C3: the reconciler's preprocessing discards exactly the failure
sentinels — the fusion input contains a `(method, text)` entry iff the
input mapping holds that entry as a string that starts with neither
`"Failed"` nor `"Error"`; so no failure sentinel (and no non-string
value) ever reaches the fusion prompt as document content. -/
theorem c3_sentinel_filter (results : List (String × OcrVal)) :
    (∀ m t, (m, t) ∈ fusionInput results →
      (m, OcrVal.str t) ∈ results ∧ strStartsWith t "Failed" = false ∧
        strStartsWith t "Error" = false) ∧
    (∀ m t, (m, OcrVal.str t) ∈ results → strStartsWith t "Failed" = false →
      strStartsWith t "Error" = false → (m, t) ∈ fusionInput results) := by
  constructor
  · intro m t hmt
    rw [fusionInput, List.mem_filterMap] at hmt
    rcases hmt with ⟨⟨m2, v⟩, hmem, heq⟩
    cases v with
    | nonStr => simp at heq
    | str t2 =>
      simp only at heq
      by_cases hc : (!(strStartsWith t2 "Failed") && !(strStartsWith t2 "Error")) = true
      · rw [if_pos hc] at heq
        have hpair : m2 = m ∧ t2 = t := by
          have := Option.some.inj heq
          exact ⟨congrArg Prod.fst this, congrArg Prod.snd this⟩
        rcases hpair with ⟨hm, ht⟩
        subst hm; subst ht
        rcases Bool.and_eq_true_iff.mp hc with ⟨h1, h2⟩
        exact ⟨hmem, by simpa using h1, by simpa using h2⟩
      · rw [if_neg hc] at heq
        cases heq
  · intro m t hmem h1 h2
    rw [fusionInput, List.mem_filterMap]
    refine ⟨(m, OcrVal.str t), hmem, ?_⟩
    simp only
    rw [if_pos (by rw [h1, h2]; rfl)]

theorem c3_sentinel_filter_w :
    ("claude", "Shalom, document text") ∈ fusionInput
      [("claude", OcrVal.str "Shalom, document text"),
       ("tesseract", OcrVal.str "Error: timeout")] :=
  (c3_sentinel_filter _).2 "claude" "Shalom, document text"
    (by decide) (by decide) (by decide)

theorem c4_cex :
    fusionInput c4Results = [] ∧
    combine_ocr_results c4Env c4Results (some "pdf") (some "english")
      = "Fabricated transcription" ∧
    "Fabricated transcription" ≠ "" := by
  refine ⟨by decide, rfl, by decide⟩

/-- C4 (amended): when every provider result is discarded by the sentinel
filter, `combine_ocr_results` performs no `NoUsableInput` short-circuit
and produces no empty canonical text: it still calls the fusion model,
with a prompt holding zero extraction sections, and returns the model's
answer unchanged — or an `"Error…"`-prefixed string if the call raises. -/
theorem c4_empty_fusion_no_shortcircuit (env : ReconEnv)
    (results : List (String × OcrVal)) (fileType language : Option String)
    (h : fusionInput results = []) :
    extractionBlocks results = "" ∧
    buildPrompt results fileType language
      = headerPrompt fileType language ++ closingPrompt ∧
    (∀ t, env.model (buildPrompt results fileType language) = .ok t →
      combine_ocr_results env results fileType language = t) ∧
    (∀ e, env.model (buildPrompt results fileType language) = .error e →
      combine_ocr_results env results fileType language
        = "Error combining OCR results with Claude: " ++ e) := by
  have hb : extractionBlocks results = "" := by
    rw [extractionBlocks, h]
    rfl
  refine ⟨hb, ?_, ?_, ?_⟩
  · rw [buildPrompt, hb]
    simp
  · intro t ht
    rw [combine_ocr_results, ht]
  · intro e he
    rw [combine_ocr_results, he]

theorem c4_empty_fusion_no_shortcircuit_w :
    combine_ocr_results ⟨fun _ => .error "quota exceeded"⟩ c4Results (some "pdf") none
      = "Error combining OCR results with Claude: " ++ "quota exceeded" :=
  (c4_empty_fusion_no_shortcircuit ⟨fun _ => .error "quota exceeded"⟩ c4Results
      (some "pdf") none (by decide)).2.2.2 "quota exceeded" rfl

theorem convert_pdf_fallback_eq (env : PdfEnv)
    (h : ∀ images, env.convertFromPath env.popplerPath 1 1 = .ok images → images = []) :
    convert_pdf_to_png env = convertPdfFallback env := by
  unfold convert_pdf_to_png
  cases hc : env.convertFromPath env.popplerPath 1 1 with
  | error e => rfl
  | ok images =>
    have he := h images hc
    subst he
    rfl

theorem pymupdf_ok_eq (env : PdfEnv) (ho : env.openPdf = .ok ())
    (hp : env.pageCount ≠ 0) (pix : Nat) (hr : env.renderPage 0 = .ok pix) :
    convert_pdf_to_png_with_pymupdf env = (some (env.tempPng 1), [env.tempPng 1]) := by
  unfold convert_pdf_to_png_with_pymupdf
  rw [ho, if_neg hp, hr]

theorem pymupdf_none_split (env : PdfEnv)
    (h : (convert_pdf_to_png_with_pymupdf env).1 = none) :
    convert_pdf_to_png_with_pymupdf env
      = (none, (convert_pdf_to_png_with_pymupdf env).2) := by
  rw [← h]

/-- C5: for a PDF, the conversion chain consults exactly the three
renderers pdf2image/poppler, PyMuPDF and ImageMagick in that fixed order
and only about the first page (`first_page=1, last_page=1`, page `0`,
page `[0]`); it short-circuits at the first strategy that yields an image
— in particular a working second renderer still produces a raster
artifact when the first is unavailable — and when all three fail it
returns the explicit failure value `none` instead of raising. -/
theorem c5_pdf_chain (env : PdfEnv) :
    (∀ images, env.convertFromPath env.popplerPath 1 1 = .ok images → images ≠ [] →
      convert_pdf_to_png env = (some (env.tempPng 0), [env.tempPng 0])) ∧
    ((∀ images, env.convertFromPath env.popplerPath 1 1 = .ok images → images = []) →
      env.openPdf = .ok () → env.pageCount ≠ 0 →
      ∀ pix, env.renderPage 0 = .ok pix →
        (convert_pdf_to_png env).1 = some (env.tempPng 1)) ∧
    ((∀ images, env.convertFromPath env.popplerPath 1 1 = .ok images → images = []) →
      (convert_pdf_to_png_with_pymupdf env).1 = none →
      env.magickRun 0 = .ok () →
      (convert_pdf_to_png env).1 = some (env.tempPng 2)) ∧
    ((∀ images, env.convertFromPath env.popplerPath 1 1 = .ok images → images = []) →
      (convert_pdf_to_png_with_pymupdf env).1 = none →
      ∀ e, env.magickRun 0 = .error e → (convert_pdf_to_png env).1 = none) ∧
    (∀ env2 : PdfEnv,
      env2.convertFromPath env2.popplerPath 1 1
        = env.convertFromPath env.popplerPath 1 1 →
      env2.openPdf = env.openPdf → env2.pageCount = env.pageCount →
      env2.renderPage 0 = env.renderPage 0 → env2.magickRun 0 = env.magickRun 0 →
      env2.tempPng = env.tempPng →
      convert_pdf_to_png env2 = convert_pdf_to_png env) := by
  refine ⟨?_, ?_, ?_, ?_, ?_⟩
  · intro images h hne
    unfold convert_pdf_to_png
    rw [h]
    have he : images.isEmpty = false := by
      cases images with
      | nil => exact absurd rfl hne
      | cons a as => rfl
    show (if images.isEmpty = true then convertPdfFallback env
      else (some (env.tempPng 0), [env.tempPng 0]))
        = (some (env.tempPng 0), [env.tempPng 0])
    rw [he]
    simp
  · intro h1 ho hp pix hr
    rw [convert_pdf_fallback_eq env h1]
    unfold convertPdfFallback
    rw [pymupdf_ok_eq env ho hp pix hr]
  · intro h1 h2 hm
    rw [convert_pdf_fallback_eq env h1]
    unfold convertPdfFallback
    rw [pymupdf_none_split env h2, hm]
  · intro h1 h2 e hm
    rw [convert_pdf_fallback_eq env h1]
    unfold convertPdfFallback
    rw [pymupdf_none_split env h2, hm]
  · intro env2 hcfp hopen hpage hrender hmagick htemp
    unfold convert_pdf_to_png convertPdfFallback convert_pdf_to_png_with_pymupdf
    rw [hcfp, hopen, hpage, hrender, hmagick, htemp]

theorem c5_pdf_chain_w :
    (convert_pdf_to_png c5Env).1 = some (c5Env.tempPng 1) :=
  (c5_pdf_chain c5Env).2.1
    (fun images h => by simp [c5Env] at h) rfl (by decide) 7 rfl

theorem create_pdf_some (env : DocxEnv) (p : String) (c : List String)
    (h : create_pdf_from_text env = (some p, c)) : p = env.tempPdfB := by
  unfold create_pdf_from_text at h
  cases hra : env.reportlabImport with
  | error e => rw [hra] at h; simp at h
  | ok u =>
    rw [hra] at h
    cases hb : env.buildPdf with
    | error e => rw [hb] at h; simp at h
    | ok u2 =>
      rw [hb] at h
      have := congrArg Prod.fst h
      simpa using this.symm

theorem method2_created_extends (env : DocxEnv) (created deleted : List String) :
    ∃ extra, (convertDocxMethod2 env created deleted).2.1 = created ++ extra := by
  unfold convertDocxMethod2
  by_cases ht : env.docxText = ""
  · rw [if_pos ht]
    exact ⟨[], by simp⟩
  · rw [if_neg ht]
    rcases hcp : create_pdf_from_text env with ⟨p, c1⟩
    cases p with
    | some pdfPath =>
      rcases hpng : convert_pdf_to_png env.pdfEnvB with ⟨png, c2⟩
      cases png with
      | some q => exact ⟨c1 ++ c2, by simp⟩
      | none =>
        rcases hti : create_text_image env with ⟨img, c3⟩
        exact ⟨c1 ++ c2 ++ c3, by simp⟩
    | none =>
      rcases hti : create_text_image env with ⟨img, c3⟩
      exact ⟨c1 ++ c3, by simp⟩

theorem method2_deleted_spec (env : DocxEnv) (created deleted : List String) :
    ∃ extra, (convertDocxMethod2 env created deleted).2.2 = deleted ++ extra ∧
      ∀ x ∈ extra, x = env.tempPdfB := by
  unfold convertDocxMethod2
  by_cases ht : env.docxText = ""
  · rw [if_pos ht]
    exact ⟨[], by simp, by simp⟩
  · rw [if_neg ht]
    rcases hcp : create_pdf_from_text env with ⟨p, c1⟩
    cases p with
    | some pdfPath =>
      have hp : pdfPath = env.tempPdfB := create_pdf_some env pdfPath c1 hcp
      rcases hpng : convert_pdf_to_png env.pdfEnvB with ⟨png, c2⟩
      cases png with
      | some q =>
        exact ⟨[pdfPath], rfl, by simpa using hp⟩
      | none =>
        rcases hti : create_text_image env with ⟨img, c3⟩
        exact ⟨[pdfPath], rfl, by simpa using hp⟩
    | none =>
      rcases hti : create_text_image env with ⟨img, c3⟩
      exact ⟨[], by simp, by simp⟩

theorem c6_cex :
    convert_docx_to_png c6Env = (none, ["wordA.pdf"], []) ∧
    "wordA.pdf" ∈ (convert_docx_to_png c6Env).2.1 ∧
    "wordA.pdf" ∉ (convert_docx_to_png c6Env).2.2 ∧
    (convert_pdf_to_png c6PdfEnv).1 = none ∧
    (convert_pdf_to_png c6PdfEnv).2 = ["magick.png"] := by
  decide

/-- C6 (amended): temporary files are removed only on the in-band
fall-through paths — the Word-COM temporary PDF is deleted whenever the
automation itself succeeded (whether or not the recursive PDF→PNG
conversion produced an image), and the synthetic-text temporary PDF is
deleted after its conversion — but not on every exit path: when the Word
automation raises after creating its temporary PDF that file is never
deleted, and when the first two PDF strategies fail the ImageMagick
temporary PNG is created before the subprocess runs and is left behind
on its failure, `convert_pdf_to_png` itself deleting nothing at all. -/
theorem c6_cleanup_best_effort (env : DocxEnv) (penv : PdfEnv) :
    (env.win32Import = .ok () → env.wordSaveAsPdf = .ok () →
      env.tempPdfA ∈ (convert_docx_to_png env).2.2) ∧
    (env.win32Import = .ok () →
      ∀ e, env.wordSaveAsPdf = .error e →
        env.tempPdfA ∈ (convert_docx_to_png env).2.1 ∧
        (env.tempPdfA ≠ env.tempPdfB →
          env.tempPdfA ∉ (convert_docx_to_png env).2.2)) ∧
    ((∀ images, penv.convertFromPath penv.popplerPath 1 1 = .ok images → images = []) →
      (convert_pdf_to_png_with_pymupdf penv).1 = none →
      penv.tempPng 2 ∈ (convert_pdf_to_png penv).2 ∧
      ∀ e, penv.magickRun 0 = .error e → (convert_pdf_to_png penv).1 = none) := by
  refine ⟨?_, ?_, ?_⟩
  · intro hw hs
    unfold convert_docx_to_png
    rw [hw, hs]
    rcases hpng : convert_pdf_to_png env.pdfEnvA with ⟨png, c⟩
    cases png with
    | some q => simp
    | none =>
      rcases method2_deleted_spec env (env.tempPdfA :: c) [env.tempPdfA] with ⟨extra, he, _⟩
      rw [he]
      simp
  · intro hw e hs
    unfold convert_docx_to_png
    rw [hw, hs]
    constructor
    · rcases method2_created_extends env [env.tempPdfA] [] with ⟨extra, he⟩
      rw [he]
      simp
    · intro hne hmem
      rcases method2_deleted_spec env [env.tempPdfA] [] with ⟨extra, he, hall⟩
      rw [he] at hmem
      simp at hmem
      exact hne (hall _ hmem)
  · intro h1 h2
    rw [convert_pdf_fallback_eq penv h1]
    unfold convertPdfFallback
    rw [pymupdf_none_split penv h2]
    constructor
    · cases hm : penv.magickRun 0 with
      | ok u => simp
      | error e => simp
    · intro e hm
      rw [hm]

theorem c6_cleanup_best_effort_w :
    "wordA.pdf" ∈ (convert_docx_to_png c6EnvOk).2.2 :=
  (c6_cleanup_best_effort c6EnvOk c6PdfEnv).1 rfl rfl

theorem c7_cex :
    process_single_file c7Env "resume_12.doc" [] = none ∧
    process_single_file c7Env "photo_7.jpg" [] = none ∧
    extract_file_id "resume_12.doc" = some "12" ∧
    process_single_file c7Env "resume_12.docx" [] = some ("12", [], "docx") :=
  ⟨by decide, by decide, by decide, by decide⟩

/-- C7 (amended): `process_single_file` accepts exactly the extensions
`.png`, `.pdf` and `.docx` (compared lower-cased); any other extension —
including the legacy word-processor format `.doc` and the non-PNG image
types — is skipped with `None`, with an identical result under every
OCR/extraction environment (so no conversion strategy or OCR call is
consulted); for an accepted extension the function proceeds to the ID
check and, when extraction and persistence succeed, returns the id, the
extracted data and the file type. -/
theorem c7_supported_extensions (env env2 : ProcEnv) (filename : String)
    (mapping : List (String × List (Option String))) :
    (([".png", ".pdf", ".docx"].contains (asciiLower (splitExt filename).2)) = false →
      process_single_file env filename mapping = none ∧
      process_single_file env filename mapping
        = process_single_file env2 filename mapping) ∧
    (([".png", ".pdf", ".docx"].contains (asciiLower (splitExt filename).2)) = true →
      ∀ fid, extract_file_id filename = some fid →
      ∀ data, env.extractAspects env.ocrText (allConceptValues mapping)
          (String.mk ((asciiLower (splitExt filename).2).data.drop 1)) = .ok data →
      env.saveJson = .ok () →
      process_single_file env filename mapping
        = some (fid, data, String.mk ((asciiLower (splitExt filename).2).data.drop 1))) := by
  constructor
  · intro h
    have hcond : (!([".png", ".pdf", ".docx"].contains
        (asciiLower (splitExt filename).2))) = true := by
      rw [h]
      rfl
    constructor
    · simp only [process_single_file]
      rw [if_pos hcond]
    · simp only [process_single_file]
      rw [if_pos hcond, if_pos hcond]
  · intro h fid hfid data hex hsave
    have hcond : (!([".png", ".pdf", ".docx"].contains
        (asciiLower (splitExt filename).2))) = false := by
      rw [h]
      rfl
    simp only [process_single_file]
    rw [if_neg (fun hc => Bool.false_ne_true (hcond.symm.trans hc)), hfid, hex, hsave]

theorem c7_supported_extensions_w :
    process_single_file c7Env "resume_12.docx" [] = some ("12", [], "docx") :=
  (c7_supported_extensions c7Env c7Env "resume_12.docx" []).2
    (by decide) "12" (by decide) [] rfl rfl

theorem dropWhile_head_digit (l : List Char) (c : Char) (cs : List Char)
    (h : l.dropWhile (fun c => !c.isDigit) = c :: cs) : c.isDigit = true := by
  have hh := List.head?_dropWhile_not (fun c => !c.isDigit) l
  rw [h] at hh
  simpa using hh

/-- C9: `extract_file_id` returns the leftmost maximal digit run of the
filename (`"request_482.pdf" ↦ "482"`), returns `None` exactly when the
filename holds no digit, and in that case `process_single_file` skips
the document with `None` under every environment — no extraction happens
and nothing is persisted. -/
theorem c9_extract_file_id (s : String) :
    (extract_file_id s = none ↔ ∀ c ∈ s.data, c.isDigit = false) ∧
    (∀ t, extract_file_id s = some t →
      t ≠ "" ∧ (∀ c ∈ t.data, c.isDigit = true) ∧
      ∃ pre post, s.data = pre ++ t.data ++ post ∧
        (∀ c ∈ pre, c.isDigit = false) ∧
        (∀ c, post.head? = some c → c.isDigit = false)) ∧
    extract_file_id "request_482.pdf" = some "482" ∧
    (∀ (env : ProcEnv) (mapping : List (String × List (Option String))),
      extract_file_id s = none → process_single_file env s mapping = none) := by
  refine ⟨?_, ?_, by decide, ?_⟩
  · constructor
    · intro h c hc
      by_cases he : (s.data.dropWhile (fun c => !c.isDigit)).isEmpty = true
      · have hnil : s.data.dropWhile (fun c => !c.isDigit) = [] := List.isEmpty_iff.mp he
        have := List.dropWhile_eq_nil_iff.mp hnil c hc
        simpa using this
      · exfalso
        simp only [extract_file_id] at h
        rw [if_neg he] at h
        cases h
    · intro h
      simp only [extract_file_id]
      rw [if_pos (List.isEmpty_iff.mpr (List.dropWhile_eq_nil_iff.mpr
        (fun c hc => by rw [h c hc]; rfl)))]
  · intro t ht
    simp only [extract_file_id] at ht
    by_cases he : (s.data.dropWhile (fun c => !c.isDigit)).isEmpty = true
    · rw [if_pos he] at ht
      cases ht
    · rw [if_neg he] at ht
      have ht2 : t.data = (s.data.dropWhile (fun c => !c.isDigit)).takeWhile Char.isDigit := by
        rw [← Option.some.inj ht]
      rcases hrest : s.data.dropWhile (fun c => !c.isDigit) with _ | ⟨c, cs⟩
      · rw [hrest] at he
        exact absurd rfl he
      · have hc : c.isDigit = true := dropWhile_head_digit _ _ _ hrest
        refine ⟨?_, ?_, ?_⟩
        · intro hemp
          have hd : t.data = [] := by rw [hemp]
          rw [ht2, hrest, List.takeWhile_cons_of_pos hc] at hd
          cases hd
        · intro ch hch
          rw [ht2] at hch
          exact List.mem_takeWhile_imp hch
        · refine ⟨s.data.takeWhile (fun c => !c.isDigit),
            (s.data.dropWhile (fun c => !c.isDigit)).dropWhile Char.isDigit, ?_, ?_, ?_⟩
          · rw [ht2, List.append_assoc, List.takeWhile_append_dropWhile,
              List.takeWhile_append_dropWhile]
          · intro ch hch
            have := List.mem_takeWhile_imp hch
            simpa using this
          · intro ch hch
            have hh := List.head?_dropWhile_not Char.isDigit
              (s.data.dropWhile (fun c => !c.isDigit))
            rw [hch] at hh
            exact hh
  · intro env mapping hn
    by_cases h : ([".png", ".pdf", ".docx"].contains (asciiLower (splitExt s).2)) = true
    · have hcond : (!([".png", ".pdf", ".docx"].contains
          (asciiLower (splitExt s).2))) = false := by
        rw [h]
        rfl
      simp only [process_single_file]
      rw [if_neg (fun hc => Bool.false_ne_true (hcond.symm.trans hc)), hn]
    · have hcond : (!([".png", ".pdf", ".docx"].contains
          (asciiLower (splitExt s).2))) = true := by
        cases hx : ([".png", ".pdf", ".docx"].contains (asciiLower (splitExt s).2)) with
        | false => rfl
        | true => exact absurd hx h
      simp only [process_single_file]
      rw [if_pos hcond]

theorem c9_extract_file_id_w :
    process_single_file c7Env "nodigits.png" [] = none :=
  (c9_extract_file_id "nodigits.png").2.2.2 c7Env [] (by decide)

theorem strStartsWith_append (s t p : String) (h : strStartsWith s p = true) :
    strStartsWith (s ++ t) p = true := by
  unfold strStartsWith at h ⊢
  rw [List.isPrefixOf_iff_prefix] at h ⊢
  rw [String.data_append]
  exact h.trans (List.prefix_append s.data t.data)

/-- C10: `combine_ocr_results` and `process_file_with_combined_ocr` are
total — every exception of the fusion call, of a provider pool, or of
the `Note` access is caught and comes back as an ordinary string
prefixed with `"Error"`; such a canonical text is itself shaped like a
failure sentinel (the reconciler's own filter would discard it), not a
distinct failure value; when results are supplied the function reduces
to the reconciler applied to them. -/
theorem c10_errors_returned_as_strings (fenv : FileEnv) (renv : ReconEnv)
    (filename : String) :
    (∀ results fileType language e,
      renv.model (buildPrompt results fileType language) = .error e →
      combine_ocr_results renv results fileType language
        = "Error combining OCR results with Claude: " ++ e ∧
      strStartsWith (combine_ocr_results renv results fileType language) "Error" = true ∧
      fusionInput
        [("combined", OcrVal.str (combine_ocr_results renv results fileType language))]
        = []) ∧
    (asciiLower (splitExt filename).2 = ".png" →
      ∀ e, fenv.poolPng = .error e →
        process_file_with_combined_ocr fenv renv filename none
          = "Error processing file with combined OCR: " ++ e ∧
        strStartsWith (process_file_with_combined_ocr fenv renv filename none)
          "Error" = true) ∧
    (asciiLower (splitExt filename).2 = ".pdf" →
      ∀ e, fenv.poolPdf = .error e →
        process_file_with_combined_ocr fenv renv filename none
          = "Error processing file with combined OCR: " ++ e ∧
        strStartsWith (process_file_with_combined_ocr fenv renv filename none)
          "Error" = true) ∧
    (asciiLower (splitExt filename).2 = ".docx" →
      ∀ e, fenv.poolDocx = .error e →
        process_file_with_combined_ocr fenv renv filename none
          = "Error processing file with combined OCR: " ++ e ∧
        strStartsWith (process_file_with_combined_ocr fenv renv filename none)
          "Error" = true) ∧
    (asciiLower (splitExt filename).2 = ".docx" →
      ∀ results, fenv.poolDocx = .ok results →
      ∀ e, docxNoteLanguage fenv results = .error e →
        process_file_with_combined_ocr fenv renv filename none
          = "Error processing file with combined OCR: " ++ e) ∧
    (∀ results, results ≠ [] →
      process_file_with_combined_ocr fenv renv filename (some results)
        = combine_ocr_results renv results
            (some (String.mk ((asciiLower (splitExt filename).2).data.filter
              (fun c => c != '.'))))
            (some (detectLanguage results))) := by
  have hpre : ∀ e : String,
      strStartsWith ("Error processing file with combined OCR: " ++ e) "Error" = true :=
    fun e => strStartsWith_append _ _ _ (by decide)
  refine ⟨?_, ?_, ?_, ?_, ?_, ?_⟩
  · intro results fileType language e he
    have h1 : combine_ocr_results renv results fileType language
        = "Error combining OCR results with Claude: " ++ e := by
      unfold combine_ocr_results
      rw [he]
    have h2 : strStartsWith (combine_ocr_results renv results fileType language)
        "Error" = true := by
      rw [h1]
      exact strStartsWith_append _ _ _ (by decide)
    refine ⟨h1, h2, ?_⟩
    simp [fusionInput, h2]
  · intro hext e he
    simp only [process_file_with_combined_ocr, hext]
    unfold processFetch
    rw [if_pos rfl, he]
    exact ⟨rfl, hpre e⟩
  · intro hext e he
    simp only [process_file_with_combined_ocr, hext]
    unfold processFetch
    rw [if_neg (by decide), if_pos rfl, he]
    exact ⟨rfl, hpre e⟩
  · intro hext e he
    simp only [process_file_with_combined_ocr, hext]
    unfold processFetch
    rw [if_neg (by decide), if_neg (by decide), if_pos rfl, he]
    exact ⟨rfl, hpre e⟩
  · intro hext results hres e hnote
    simp only [process_file_with_combined_ocr, hext]
    unfold processFetch
    rw [if_neg (by decide), if_neg (by decide), if_pos rfl, hres]
    simp only [hnote]
  · intro results hne
    simp only [process_file_with_combined_ocr]
    rw [if_neg (fun hc => hne (List.isEmpty_iff.mp hc))]

theorem c10_errors_returned_as_strings_w :
    process_file_with_combined_ocr c10Env ⟨fun _ => .ok "text"⟩ "request_1.pdf" none
      = "Error processing file with combined OCR: " ++ "DocumentAI quota exceeded" ∧
    strStartsWith
      (process_file_with_combined_ocr c10Env ⟨fun _ => .ok "text"⟩ "request_1.pdf" none)
      "Error" = true :=
  (c10_errors_returned_as_strings c10Env ⟨fun _ => .ok "text"⟩ "request_1.pdf").2.2.1
    (by decide) "DocumentAI quota exceeded" rfl

theorem castInts_length (l : List Val) (ns : List Int)
    (h : castInts l = some ns) : ns.length = l.length := by
  induction l generalizing ns with
  | nil =>
    simp only [castInts] at h
    rw [← Option.some.inj h]
    rfl
  | cons v vs ih =>
    simp only [castInts] at h
    cases hv : toIntVal v with
    | none => rw [hv] at h; cases h
    | some n =>
      rw [hv] at h
      cases hc : castInts vs with
      | none => rw [hc] at h; cases h
      | some ms =>
        rw [hc] at h
        rw [← Option.some.inj h]
        simp [ih ms hc]

theorem c8_cex :
    excel_to_concept_mapping [("Languages", c8SheetOne)]
      = [("Languages", [(Val.int 1, "Hebrew")])] ∧
    sheetPairs c8SheetGap = some [(Val.int 1, "Hebrew"), (Val.int 2, "English")] ∧
    (sheetDataRows c8SheetGap).length = 3 :=
  ⟨by decide, by decide, by decide⟩

/-- C8 (amended): `excel_to_concept_mapping` excludes a sheet only when
fewer than two rows in total survive blank-row removal (i.e. zero data
rows) — a sheet with a header and exactly one data row is kept — and for
a kept sheet of at least two columns in which every data row has a
non-blank value cell it returns one `{id, value}` pair per data row,
each value cast to string and stripped of surrounding whitespace; a
blank value cell instead silently drops a pair and misaligns ids with
values. -/
theorem c8_sheet_parsing (s : RawSheet) (book : List (String × RawSheet)) :
    ((s.rows.filter (fun r => !rowAllNan r)).length < 2 → sheetPairs s = none) ∧
    (∀ name ps, (name, ps) ∈ excel_to_concept_mapping book →
      ps ≠ [] ∧ ∃ sh, (name, sh) ∈ book ∧ sheetPairs sh = some ps) ∧
    (2 ≤ s.ncols → 2 ≤ (s.rows.filter (fun r => !rowAllNan r)).length →
      (∀ r ∈ sheetDataRows s, (cellAt r 1).isNan = false) →
      ∃ ps, sheetPairs s = some ps ∧
        ps.length = (sheetDataRows s).length ∧
        ps.map Prod.snd
          = (sheetDataRows s).map (fun r => pyStrip (valToStr (cellAt r 1)))) := by
  refine ⟨?_, ?_, ?_⟩
  · intro h
    unfold sheetPairs
    rw [if_pos h]
  · intro name ps hmem
    unfold excel_to_concept_mapping at hmem
    rcases List.mem_filter.mp hmem with ⟨hmem2, hne⟩
    refine ⟨by simpa using hne, ?_⟩
    rcases List.mem_filterMap.mp hmem2 with ⟨⟨n2, sh⟩, hsh, heq⟩
    cases hsp : sheetPairs sh with
    | none => rw [hsp] at heq; cases heq
    | some ps2 =>
      rw [hsp] at heq
      have h1 : n2 = name := congrArg Prod.fst (Option.some.inj heq)
      have h2 : ps2 = ps := congrArg Prod.snd (Option.some.inj heq)
      subst h1
      subst h2
      exact ⟨sh, hsh, hsp⟩
  · intro hcols hlen hvals
    have hvals2 : (if 2 ≤ s.ncols then (sheetDataRows s).map (fun r => cellAt r 1)
        else (sheetDataRows s).map (fun r => cellAt r 0)).filter (fun v => !v.isNan)
        = (sheetDataRows s).map (fun r => cellAt r 1) := by
      rw [if_pos hcols]
      rw [List.filter_eq_self]
      intro v hv
      rcases List.mem_map.mp hv with ⟨r, hr, he⟩
      rw [← he, hvals r hr]
      rfl
    have hv : sheetVals s
        = (sheetDataRows s).map (fun r => pyStrip (valToStr (cellAt r 1))) := by
      unfold sheetVals
      rw [hvals2, List.map_map]
      rfl
    have hvlen : (sheetVals s).length = (sheetDataRows s).length := by
      rw [hv, List.length_map]
    have hidlen : (sheetIds s).length = (sheetDataRows s).length := by
      unfold sheetIds
      rw [if_pos hcols]
      cases hc : castInts ((sheetDataRows s).map (fun r => cellAt r 0)) with
      | none => simp
      | some ns =>
        simpa using castInts_length _ _ hc
    refine ⟨(sheetIds s).zip (sheetVals s), ?_, ?_, ?_⟩
    · unfold sheetPairs
      rw [if_neg (by omega)]
    · rw [List.length_zip, hvlen, hidlen]
      exact Nat.min_self _
    · rw [List.map_snd_zip _ _ (by rw [hvlen, hidlen]), hv]

theorem c8_sheet_parsing_w :
    ∃ ps, sheetPairs c8SheetOne = some ps ∧
      ps.length = (sheetDataRows c8SheetOne).length ∧
      ps.map Prod.snd
        = (sheetDataRows c8SheetOne).map (fun r => pyStrip (valToStr (cellAt r 1))) :=
  (c8_sheet_parsing c8SheetOne []).2.2 (by decide) (by decide) (by decide)
